import Mathlib

/-!
Verification of the appchain-agent specification against its implementation.

The development shallowly embeds the relevant parts of the implementation:

* `src/src/index.ts` — the socket endpoint: the text-mode data handler and the
  cbor-mode accumulate-then-decode loop, and the `RECORD_NOT_FOUND` query
  responses of `executeCommand`;
* `src/src/tx.ts` — `TxHandler`: the transaction queue (`submitTx`,
  `processQueue`) as a labelled transition system over the queue state, and the
  nonce logic of `processTx` as a pure function;
* `clients/go/chainbridge/chainbridge.go` — the Go bridge client: request/response
  correlation (`Command` / `onData`), `Start` socket discovery, `Stop`, and the
  data helpers (`GetDataBool`, `GetDataBytes`, `GetDataUInt`, `DataUnmarshal`).

Strings are modelled as `List Char`, byte sequences as `List Nat`, and the
JavaScript / Go numeric values as `Nat` where only non-negative values occur.
External collaborators (the o1js chain client, the CBOR codec, IPFS) are
modelled as parameters, with their contracts stated as explicit hypotheses.
-/

namespace AppchainAgent

/-! ## Wire data model (src/src/types.ts, src/src/index.ts) -/

/-- The status field of a `CommandResponse`: SUCCESS | FAILURE | PENDING. -/
inductive TsStatus where
  | SUCCESS
  | FAILURE
  | PENDING
deriving DecidableEq, Repr

/-- A value carried in the `data` field of a TypeScript `CommandResponse`:
a string, a boolean, document bytes, or the object literals of the
`getNetwork` / `getNode` handlers (modelled structurally; the cbor-mode
re-encoding of the object into bytes is an external codec call and is not
modelled). -/
inductive TsData where
  | strD (s : List Char)
  | boolD (b : Bool)
  | bytesD (bs : List Nat)
  | networkD (parameters : List Nat) (identifier : List Char)
  | nodeD (identityKey : List Nat) (administrator : List Char) (identifier : List Char)
      (isGatewayNode : Bool) (isServiceNode : Bool)
deriving DecidableEq, Repr

/-- `CommandRequest` from src/src/types.ts: `command`, optional `payload`,
optional `id`. -/
structure TsCommandRequest where
  command : List Char
  payload : Option (List Nat)
  id : Option Nat
deriving DecidableEq, Repr

/-- `CommandResponse` from src/src/types.ts: `status`, optional `data`,
optional `error`, optional `id`, optional `tx`. -/
structure TsCommandResponse where
  status : TsStatus
  data : Option TsData
  error : Option (List Char)
  id : Option Nat
  tx : Option (List Char)
deriving DecidableEq, Repr

/-! ## Text-mode socket data handler (src/src/index.ts, server, text branch)

```
let id = 0; // simulate id unless provided
socket.on("data", async (data) => {
  if (opts.socketFormat === "text") {
    const req = { command: data.toString().trim(), id: id++ };
    await executeCommand(new Command(), req, ...);
    return;
  }
  ...
```

One request is constructed per `data` event (per socket read), its command
being the whole chunk with surrounding whitespace trimmed. -/

/-- JavaScript `String.prototype.trim` whitespace (the characters occurring in
socket text traffic; spaces, tabs, line terminators). -/
def jsWhitespace (c : Char) : Bool :=
  c = ' ' || c = '\t' || c = '\n' || c = '\r' || c = '\x0b' || c = '\x0c'

/-- JavaScript `String.prototype.trim` on a character list: drop whitespace
from both ends. -/
def jsTrim (s : List Char) : List Char :=
  ((s.dropWhile jsWhitespace).reverse.dropWhile jsWhitespace).reverse

/-- Per-connection state of the text-mode handler: the id counter and the
requests dispatched to `executeCommand` so far, in dispatch order. -/
structure TextConnState where
  id : Nat
  requests : List TsCommandRequest
deriving DecidableEq, Repr

/-- The text-branch `data` handler: one `data` event appends exactly one
request, `{ command: data.toString().trim(), id: id++ }` (no payload). -/
def textDataHandler (st : TextConnState) (chunk : List Char) : TextConnState :=
  { id := st.id + 1,
    requests := st.requests ++ [{ command := jsTrim chunk, payload := none, id := some st.id }] }

/-- Feed a whole sequence of socket reads (chunks) to a fresh text-mode
connection and collect the dispatched requests. -/
def textConnRun (chunks : List (List Char)) : List TsCommandRequest :=
  (chunks.foldl textDataHandler { id := 0, requests := [] }).requests

/-- Specification helper: the requests produced starting from counter `n`,
one per chunk. -/
def textReqsFrom (n : Nat) : List (List Char) → List TsCommandRequest
  | [] => []
  | c :: cs =>
      { command := jsTrim c, payload := none, id := some n } :: textReqsFrom (n + 1) cs

/-! ## ChainBridge.Start socket discovery (clients/go/chainbridge/chainbridge.go) -/

/-- The discovery line marker, `UNIX_SOCKET_PATH=`. -/
def socketPathMarker : List Char := ("UNIX_SOCKET_PATH=").toList

/-- The scan loop in `ChainBridge.Start`: on the first output line carrying the
discovery marker, set `socketFile` to the rest of the line
(`strings.TrimPrefix`) and stop; if the output ends without such a line,
`socketFile` is left unchanged. -/
def scanForSocketPath (socketFile : List Char) : List (List Char) → List Char
  | [] => socketFile
  | line :: rest =>
      if socketPathMarker.isPrefixOf line then line.drop socketPathMarker.length
      else scanForSocketPath socketFile rest

/-- `ChainBridge.Start`, spawn mode, through the discovery check.
`NewChainBridge` initialized `socketFile := socketFileOrCommandName`, i.e. to
the command name when a command is being spawned; `Start` scans the combined
stdout/stderr lines and afterwards fails only when `c.socketFile == ""`. -/
def startDiscovery (commandName : List Char) (outputLines : List (List Char)) :
    Except (List Char) (List Char) :=
  let sf := scanForSocketPath commandName outputLines
  if sf.isEmpty then Except.error ("socket path not found in output").toList
  else Except.ok sf

/-! ## cbor-mode socket data handler (src/src/index.ts, server, cbor branch)

```
buffer = Buffer.concat([buffer, data]);
while (buffer.length > 0) {
  try {
    const decoded = cbor.decodeFirstSync(buffer, { extendedResults: true, required: true });
    const req = decoded.value as CommandRequest;
    await executeCommand(new Command(), req, ...);
    buffer = buffer.subarray(decoded.length);
  } catch (err) {
    break; // decode failed: wait for more data
  }
}
```

The CBOR codec is an external collaborator; it is modelled as a function
`dec : List Nat → Option (Msg × Nat)` returning the decoded value and the
number of consumed bytes, `none` standing for the thrown decode error.  Its
contract (self-delimiting prefix decoding) enters the theorems as explicit
hypotheses. -/

/-- The accumulate-then-decode loop, with the buffer length as fuel (the loop
consumes at least one byte per iteration, so the length bounds the iteration
count).  Returns the dispatched messages in dispatch order and the remaining
buffer. -/
def decodeLoopFuel {Msg : Type} (dec : List Nat → Option (Msg × Nat)) :
    Nat → List Nat → List Msg × List Nat
  | 0, buffer => ([], buffer)
  | fuel + 1, buffer =>
      if buffer = [] then ([], buffer)
      else
        match dec buffer with
        | none => ([], buffer)
        | some (m, consumed) =>
            let r := decodeLoopFuel dec fuel (buffer.drop consumed)
            (m :: r.1, r.2)

/-- The `while (buffer.length > 0)` decode loop on a buffer. -/
def decodeLoop {Msg : Type} (dec : List Nat → Option (Msg × Nat))
    (buffer : List Nat) : List Msg × List Nat :=
  decodeLoopFuel dec buffer.length buffer

/-- The cbor-branch `data` handler: append the chunk to the accumulation
buffer, then run the decode loop; dispatched messages accumulate in order. -/
def cborDataHandler {Msg : Type} (dec : List Nat → Option (Msg × Nat))
    (st : List Msg × List Nat) (chunk : List Nat) : List Msg × List Nat :=
  let r := decodeLoop dec (st.2 ++ chunk)
  (st.1 ++ r.1, r.2)

/-- Feed a whole sequence of socket reads (chunks) to a fresh cbor-mode
connection: empty buffer, no messages dispatched yet. -/
def cborConnRun {Msg : Type} (dec : List Nat → Option (Msg × Nat))
    (chunks : List (List Nat)) : List Msg × List Nat :=
  chunks.foldl (cborDataHandler dec) ([], [])

/-- A concrete self-delimiting encoder used to witness the decoder contract:
a message `m` is the two bytes `[1, m]`. -/
def pairEnc (m : Nat) : List Nat := [1, m]

/-- The decoder matching `pairEnc`: two buffered bytes decode to the second
byte, consuming two bytes; fewer bytes fail (insufficient data). -/
def pairDec : List Nat → Option (Nat × Nat)
  | _ :: b :: _ => some (b, 2)
  | _ => none

/-! ## TxHandler.processTx nonce logic (src/src/tx.ts)

```
const nonce = this.nonce;
const tx = await this.client.transaction(this.publicKey, txfn, { nonce });
tx.transaction = tx.transaction?.sign(this.privateKey);
await tx.send();
if (tx.transaction) {
  if (this.opts.nonce) this.nonce = Number(tx.transaction.nonce) + 1;
  const { status, statusMessage } = await qry.processor.getTxStatus(...);
  return { status, data: ..., error: ..., tx: ... };
}
return { status: PENDING };
```

`client.transaction` is an external collaborator: it uses the supplied nonce
when one is given and fetches the account nonce from the chain otherwise, so
`tx.transaction.nonce` is the tracked nonce when tracking has a value and the
chain-fetched nonce otherwise. -/

/-- The external inputs to one `processTx` call: the chain-fetched nonce (used
when no tracked nonce is supplied), whether `tx.transaction` is defined after
`send`, and the confirmation-polling outcome. -/
structure ProcessTxArgs where
  chainNonce : Nat
  hasTx : Bool
  pollStatus : TsStatus
  pollMsg : List Char
  txHash : List Char
deriving DecidableEq, Repr

/-- The nonce carried by the built transaction: the tracked nonce when
defined, otherwise the chain-fetched nonce. -/
def txUsedNonce (tracked : Option Nat) (chainNonce : Nat) : Nat :=
  tracked.getD chainNonce

/-- One `processTx` call: returns the new tracked nonce, the nonce used by the
transaction, and the `CommandResponse`.  The tracked-nonce update to
`used + 1` happens right after a successful `send`, before the confirmation
polling, so it does not depend on the polling outcome. -/
def processTx (optsNonce : Bool) (tracked : Option Nat) (a : ProcessTxArgs) :
    Option Nat × Nat × TsCommandResponse :=
  let used := txUsedNonce tracked a.chainNonce
  if a.hasTx then
    let tracked' := if optsNonce then some (used + 1) else tracked
    (tracked', used,
      { status := a.pollStatus,
        data := if a.pollStatus ≠ TsStatus.FAILURE then some (TsData.strD a.pollMsg) else none,
        error := if a.pollStatus = TsStatus.FAILURE then some a.pollMsg else none,
        id := none,
        tx := some a.txHash })
  else
    (tracked, used,
      { status := TsStatus.PENDING, data := none, error := none, id := none, tx := none })

/-- Successive `processTx` calls of the single queue worker over the shared
tracked nonce: returns the final tracked nonce and the used nonces in
submission order. -/
def runProcessTxs (optsNonce : Bool) (tracked : Option Nat) :
    List ProcessTxArgs → Option Nat × List Nat
  | [] => (tracked, [])
  | a :: rest =>
      let s := processTx optsNonce tracked a
      let r := runProcessTxs optsNonce s.1 rest
      (r.1, s.2.1 :: r.2)

/-! ## Go ChainBridge data model (clients/go/chainbridge/chainbridge.go) -/

/-- A decoded value in the `Data interface{}` field of a Go `CommandResponse`,
as produced by fxamacker/cbor: a boolean, a string, a byte slice, a CBOR tag
wrapping a value, or an integer.  `Data == nil` is modelled by `Option`. -/
inductive GoData where
  | boolV (b : Bool)
  | strV (s : List Char)
  | bytesV (bs : List Nat)
  | tagV (num : Nat) (content : GoData)
  | intV (n : Int)
deriving DecidableEq, Repr

/-- The Go `CommandResponse` struct: `Status`, `Data` (nil-able interface),
`Error`, `ID`, `TX`. -/
structure GoCommandResponse where
  status : List Char
  data : Option GoData
  error : List Char
  id : Nat
  tx : List Char
deriving DecidableEq, Repr

/-- Errors returned by the ChainBridge data helpers: the `ErrNoData` sentinel,
a `fmt.Errorf` type mismatch, or a parse/unmarshal failure. -/
inductive GoErr where
  | noData
  | typeMismatch (msg : List Char)
  | parseFailed (msg : List Char)
deriving DecidableEq, Repr

/-- `ChainBridge.GetDataBool`: nil data is `ErrNoData`; non-boolean data is a
type error; otherwise the boolean. -/
def GetDataBool (r : GoCommandResponse) : Except GoErr Bool :=
  match r.data with
  | none => Except.error GoErr.noData
  | some (GoData.boolV b) => Except.ok b
  | some _ => Except.error (GoErr.typeMismatch ("unexpected data type, expected bool").toList)

/-- `ChainBridge.GetDataBytes`: nil data is `ErrNoData`; data must be a CBOR
tag whose content is a byte slice. -/
def GetDataBytes (r : GoCommandResponse) : Except GoErr (List Nat) :=
  match r.data with
  | none => Except.error GoErr.noData
  | some (GoData.tagV _ (GoData.bytesV bs)) => Except.ok bs
  | some (GoData.tagV _ _) =>
      Except.error (GoErr.typeMismatch ("unexpected tag content type, expected byte slice").toList)
  | some _ =>
      Except.error (GoErr.typeMismatch ("unexpected data type, expected cbor tag").toList)

/-- Go `strconv.ParseUint(s, 10, 64)`: an empty string or any non-digit
character fails; the value overflowing 64 bits fails. -/
def parseUint64 (s : List Char) : Option Nat :=
  if s = [] then none
  else
    s.foldl
      (fun acc c =>
        acc.bind fun a =>
          if c.isDigit then
            let v := a * 10 + (c.toNat - 48)
            if v < 2 ^ 64 then some v else none
          else none)
      (some 0)

/-- `ChainBridge.GetDataUInt`: nil data is `ErrNoData`; data must be a string
parsing as a decimal uint64. -/
def GetDataUInt (r : GoCommandResponse) : Except GoErr Nat :=
  match r.data with
  | none => Except.error GoErr.noData
  | some (GoData.strV s) =>
      match parseUint64 s with
      | some n => Except.ok n
      | none => Except.error (GoErr.parseFailed ("failed to parse uint64").toList)
  | some _ => Except.error (GoErr.typeMismatch ("unexpected data type, expected string").toList)

/-- `ChainBridge.DataUnmarshal`: nil data is `ErrNoData`; data must be a byte
slice which the external CBOR codec `dec` unmarshals into the target value. -/
def DataUnmarshal {V : Type} (dec : List Nat → Option V) (r : GoCommandResponse) :
    Except GoErr V :=
  match r.data with
  | none => Except.error GoErr.noData
  | some (GoData.bytesV bs) =>
      match dec bs with
      | some v => Except.ok v
      | none => Except.error (GoErr.parseFailed ("CBOR Error").toList)
  | some _ =>
      Except.error (GoErr.typeMismatch ("unexpected data type, expected byte slice").toList)

/-! ## Go ChainBridge response correlation (chainbridge.go, Command / onData)

`Command` allocates a fresh id, stores a buffered single-slot channel in the
`responses` map, writes the request, and waits for its channel or its timeout
(removing the map entry on timeout).  `onData` decodes an arriving response
and, when its id has a registered channel, delivers the response on exactly
that channel and deletes the entry; an unknown id is silently dropped. -/

/-- The correlation state: ids with a registered response channel (the
`responses` sync.Map) and the log of deliveries (channel id, response)
performed by `onData`, in arrival order. -/
structure CorrState where
  pending : List Nat
  delivered : List (Nat × GoCommandResponse)
deriving DecidableEq, Repr

/-- `onData`: if the response id has a registered channel, send the response
to that channel and delete the map entry; otherwise leave the state unchanged
(the response is discarded, no error). -/
def onData (st : CorrState) (r : GoCommandResponse) : CorrState :=
  if r.id ∈ st.pending then
    { pending := st.pending.erase r.id, delivered := st.delivered ++ [(r.id, r)] }
  else st

/-- `Command`, before writing the request: register a channel for the id. -/
def registerCall (st : CorrState) (i : Nat) : CorrState :=
  { st with pending := st.pending ++ [i] }

/-- `Command`, on timeout: delete the channel for the id, so a late response
finds no slot. -/
def timeoutCall (st : CorrState) (i : Nat) : CorrState :=
  { st with pending := st.pending.erase i }

/-- Run `onData` over a sequence of responses in arrival order. -/
def runOnData (st : CorrState) (rs : List GoCommandResponse) : CorrState :=
  rs.foldl onData st

/-- The responses received by the caller waiting on id `i`, in order. -/
def receivedBy (st : CorrState) (i : Nat) : List GoCommandResponse :=
  (st.delivered.filter (fun d => d.1 == i)).map (fun d => d.2)

/-! ## ChainBridge.Stop (chainbridge.go) -/

/-- The ChainBridge lifecycle state touched by `Stop`: the reconnect flag,
whether an nbio engine was created and is running, whether a backend process
was spawned (`c.cmd != nil`), whether SIGTERM was delivered to it, and whether
the socket file exists. -/
structure BridgeStopState where
  reconnect : Bool
  hasClient : Bool
  engineRunning : Bool
  hasCmd : Bool
  sigTermSent : Bool
  socketFileExists : Bool
deriving DecidableEq, Repr

/-- `ChainBridge.Stop`: disable reconnection; stop the nbio engine when one
was created; when a process was spawned, signal it with SIGTERM and
best-effort remove the socket file (the `os.Remove` result is ignored).
`signalOk` models the result of `Process.Signal`: on Linux, SIGTERM delivery
to the spawned, never-reaped process succeeds even after the process exits,
so repeated `Stop` calls run with `signalOk = true`; a failing signal makes
`Stop` return that error before the removal, as in the code. -/
def Stop (signalOk : Bool) (s : BridgeStopState) : BridgeStopState × Option (List Char) :=
  let s₁ := { s with reconnect := false }
  let s₂ := if s₁.hasClient then { s₁ with engineRunning := false } else s₁
  if s₂.hasCmd then
    if signalOk then
      let s₃ := { s₂ with sigTermSent := true }
      ({ s₃ with socketFileExists := false }, none)
    else (s₂, some ("signal failed").toList)
  else (s₂, none)

/-! ## RECORD_NOT_FOUND query responses (src/src/index.ts, executeCommand) -/

/-- A `Networks.networks` record: identifier and parameters CID. -/
structure NetworkRec where
  identifier : List Char
  parametersCID : List Char
deriving DecidableEq, Repr

/-- A `Nodes.nodes` record. -/
structure NodeRec where
  administrator : List Char
  identifier : List Char
  identityKeyCID : List Char
  isGatewayNode : Bool
  isServiceNode : Bool
deriving DecidableEq, Repr

/-- The appchain query state reached through `client.query.runtime`:
`Networks.activeNetwork`, `Networks.networks` (id → record), `Nodes.nodes`
(id → record), `Pki.documents` (epoch → document CID). -/
structure AppchainQueryState where
  activeNetwork : Option Nat
  networks : Nat → Option NetworkRec
  nodes : Nat → Option NodeRec
  pkiDocuments : Nat → Option (List Char)

/-- `responses.RECORD_NOT_FOUND`: `{ id, status: SUCCESS, data: undefined }`. -/
def RECORD_NOT_FOUND (id : Option Nat) : TsCommandResponse :=
  { id := id, status := TsStatus.SUCCESS, data := none, error := none, tx := none }

/-- `responses.IPFS_NOT_STARTED`: `{ id, status: FAILURE, error: ... }`. -/
def IPFS_NOT_STARTED (id : Option Nat) : TsCommandResponse :=
  { id := id, status := TsStatus.FAILURE, data := none,
    error := some ("IPFS node not started").toList, tx := none }

/-- `networks getActive`: look up the active network id, then its record; if
either is missing, respond RECORD_NOT_FOUND, else the identifier string. -/
def networksGetActive (st : AppchainQueryState) (id : Option Nat) : TsCommandResponse :=
  match st.activeNetwork with
  | none => RECORD_NOT_FOUND id
  | some nid =>
      match st.networks nid with
      | none => RECORD_NOT_FOUND id
      | some n =>
          { status := TsStatus.SUCCESS, data := some (TsData.strD n.identifier),
            error := none, id := id, tx := none }

/-- `nodes getNode <identifier>`: fails when the IPFS node is not started;
otherwise hash the identifier to the node id (`Node.getID`, an external
circuit hash, modelled as the parameter `getID`) and look it up; a missing
record responds RECORD_NOT_FOUND; a found record is returned with its
identity key fetched from IPFS by CID (parameter `ipfsGet`). -/
def nodesGetNode (getID : List Char → Nat) (ipfsGet : List Char → List Nat)
    (ipfsStarted : Bool) (st : AppchainQueryState) (id : Option Nat)
    (identifier : List Char) : TsCommandResponse :=
  if !ipfsStarted then IPFS_NOT_STARTED id
  else
    match st.nodes (getID identifier) with
    | none => RECORD_NOT_FOUND id
    | some nd =>
        { status := TsStatus.SUCCESS,
          data := some (TsData.nodeD (ipfsGet nd.identityKeyCID) nd.administrator
            nd.identifier nd.isGatewayNode nd.isServiceNode),
          error := none, id := id, tx := none }

/-- `pki getDocument <epoch>`: fails when the IPFS node is not started; an
epoch with no stored document CID responds RECORD_NOT_FOUND; otherwise the
document bytes fetched from IPFS by CID. -/
def pkiGetDocument (ipfsGet : List Char → List Nat) (ipfsStarted : Bool)
    (st : AppchainQueryState) (id : Option Nat) (epoch : Nat) : TsCommandResponse :=
  if !ipfsStarted then IPFS_NOT_STARTED id
  else
    match st.pkiDocuments epoch with
    | none => RECORD_NOT_FOUND id
    | some cid =>
        { status := TsStatus.SUCCESS, data := some (TsData.bytesD (ipfsGet cid)),
          error := none, id := id, tx := none }

/-! ## TxHandler transaction queue (src/src/tx.ts, submitTx / processQueue)

```
public async submitTx(txfn, cmdReq) {
  return new Promise((resolve, reject) => {
    this.txQueue.push({ txfn, cmdReq, timeSubmit, resolve, reject });
    this.processQueue().catch((err) => {
      while (this.txQueue.length > 0) {
        const task = this.txQueue.shift();
        task?.reject(err);
      }
    });
  });
}
private async processQueue() {
  if (this.isProcessing || this.txQueue.length === 0) return;
  this.isProcessing = true;
  while (this.txQueue.length > 0) {
    const { txfn, cmdReq, timeSubmit, resolve, reject } = this.txQueue[0];
    try {
      const result = await this.processTx(txfn, cmdReq, timeSubmit);
      resolve(result);
    } catch (err) {
      reject(err);
    }
    this.txQueue.shift();
  }
  this.isProcessing = false;
}
```

Tasks are identified by their submission index (0, 1, 2, ...); submission
order is id order.  JavaScript executes each synchronous segment between
await points atomically, so the queue evolves by these atomic events:
a submission while the worker is idle (which synchronously starts the worker
and begins processing the queue head), a submission while the worker runs,
the completion of `processTx` for the head task (resolving or rejecting its
future, shifting the queue, and either beginning the next head or leaving the
loop), and a crash of the loop itself outside the per-task try/catch (the
catch attached in `submitTx` then drains the queue, rejecting every task; the
code never resets `isProcessing` in that path). -/

/-- How a task's future is settled: resolved with a `CommandResponse`, or
rejected with an error (identified by a numeric code). -/
inductive TxOutcome where
  | resolve (r : TsCommandResponse)
  | reject (e : Nat)
deriving DecidableEq, Repr

/-- The TxHandler queue state.  `txQueue`, `isProcessing` are the fields of
the class; `nextId` counts submissions; `crashed` records that the
`processQueue` loop threw and its invocation ended through the `submitTx`
catch; `resolved` logs the settled futures in settlement order and `begun`
the tasks whose processing has begun, in begin order (instrumentation). -/
structure TxQState where
  txQueue : List Nat
  isProcessing : Bool
  crashed : Bool
  nextId : Nat
  resolved : List (Nat × TxOutcome)
  begun : List Nat
deriving DecidableEq, Repr

/-- The catch handler installed by `submitTx` on `processQueue()`: while the
queue is nonempty, shift the head task and reject its future with the error. -/
def drainReject (e : Nat) : List Nat → List (Nat × TxOutcome)
  | [] => []
  | t :: rest => (t, TxOutcome.reject e) :: drainReject e rest

/-- The state after `submitTx` runs while the worker is idle: the task is
pushed, `processQueue` sets `isProcessing` and synchronously begins the head
of the queue (up to the first await inside `processTx`). -/
def submitIdleState (σ : TxQState) : TxQState :=
  { txQueue := σ.txQueue ++ [σ.nextId],
    isProcessing := true,
    crashed := σ.crashed,
    nextId := σ.nextId + 1,
    resolved := σ.resolved,
    begun := σ.begun ++ (σ.txQueue ++ [σ.nextId]).take 1 }

/-- The state after `submitTx` runs while the worker is busy: the task is
pushed; `processQueue` returns at the `isProcessing` guard. -/
def submitBusyState (σ : TxQState) : TxQState :=
  { σ with txQueue := σ.txQueue ++ [σ.nextId], nextId := σ.nextId + 1 }

/-- The state after `processTx` for the head task `t` returns or throws: the
worker settles the future (`resolve(result)` or the per-task `reject(err)`),
shifts the queue, and either begins the next head or, on an empty queue,
clears `isProcessing` and leaves the loop. -/
def taskDoneState (σ : TxQState) (t : Nat) (rest : List Nat) (out : TxOutcome) : TxQState :=
  { txQueue := rest,
    isProcessing := !rest.isEmpty,
    crashed := false,
    nextId := σ.nextId,
    resolved := σ.resolved ++ [(t, out)],
    begun := σ.begun ++ rest.take 1 }

/-- The state after the `processQueue` loop itself throws outside the
per-task try/catch: the `submitTx` catch drains the queue in FIFO order,
rejecting every queued task with the loop error; `isProcessing` stays set
(the code never resets it on this path). -/
def queueCrashState (σ : TxQState) (e : Nat) : TxQState :=
  { txQueue := [],
    isProcessing := true,
    crashed := true,
    nextId := σ.nextId,
    resolved := σ.resolved ++ drainReject e σ.txQueue,
    begun := σ.begun }

/-- The initial TxHandler state: empty queue, worker idle. -/
def txInit : TxQState :=
  { txQueue := [], isProcessing := false, crashed := false, nextId := 0,
    resolved := [], begun := [] }

/-- One atomic event of the TxHandler (see the section comment). -/
inductive TxStep : TxQState → TxQState → Prop where
  | submit_idle (σ : TxQState) (h : σ.isProcessing = false) :
      TxStep σ (submitIdleState σ)
  | submit_busy (σ : TxQState) (h : σ.isProcessing = true) :
      TxStep σ (submitBusyState σ)
  | task_done (σ : TxQState) (out : TxOutcome) (t : Nat) (rest : List Nat)
      (hb : σ.isProcessing = true) (hc : σ.crashed = false)
      (hq : σ.txQueue = t :: rest) :
      TxStep σ (taskDoneState σ t rest out)
  | queue_crash (σ : TxQState) (e : Nat)
      (hb : σ.isProcessing = true) (hc : σ.crashed = false) :
      TxStep σ (queueCrashState σ e)

/-- States reachable from the initial TxHandler state. -/
inductive TxReachable : TxQState → Prop where
  | init : TxReachable txInit
  | step {σ σ' : TxQState} : TxReachable σ → TxStep σ σ' → TxReachable σ'

/-- Zero or more TxHandler events. -/
inductive TxSteps : TxQState → TxQState → Prop where
  | refl (σ : TxQState) : TxSteps σ σ
  | tail {σ σ' σ'' : TxQState} : TxSteps σ σ' → TxStep σ' σ'' → TxSteps σ σ''

/-- The ids whose futures have settled, in settlement order. -/
def resolvedIds (σ : TxQState) : List Nat := σ.resolved.map Prod.fst

/-- Tasks begun but not yet settled — the tasks in flight. -/
def inFlight (σ : TxQState) : List Nat :=
  σ.begun.filter (fun i => !(resolvedIds σ).contains i)

/-- The TxHandler state invariant: futures settle in submission order
(settled ids are exactly 0, ..., resolved.length - 1 in order); processing
begins in submission order; the queue holds exactly the submitted-unsettled
ids in order, the head being the one in process while the worker runs; while
the worker runs (and has not crashed) exactly one begun task is unsettled;
when idle all begun tasks are settled and the queue is empty; after a crash
the flag stays set and every begun task is settled. -/
def TxInv (σ : TxQState) : Prop :=
  resolvedIds σ = List.range σ.resolved.length ∧
  σ.begun = List.range σ.begun.length ∧
  σ.txQueue = List.range' σ.resolved.length σ.txQueue.length ∧
  σ.nextId = σ.resolved.length + σ.txQueue.length ∧
  (σ.crashed = false →
     (σ.isProcessing = true → σ.begun.length = σ.resolved.length + 1 ∧ σ.txQueue ≠ []) ∧
     (σ.isProcessing = false → σ.begun.length = σ.resolved.length ∧ σ.txQueue = [])) ∧
  (σ.crashed = true → σ.isProcessing = true ∧ σ.begun.length ≤ σ.resolved.length)

end AppchainAgent

namespace AppchainAgent

/-! ## Helper lemmas for the text-mode handler -/

theorem textConnRun_foldl (chunks : List (List Char)) :
    ∀ (n : Nat) (acc : List TsCommandRequest),
      (chunks.foldl textDataHandler { id := n, requests := acc }).requests
        = acc ++ textReqsFrom n chunks := by
  induction chunks with
  | nil => intro n acc; simp [textReqsFrom]
  | cons c cs ih =>
      intro n acc
      simp only [List.foldl_cons, textDataHandler, textReqsFrom]
      rw [ih (n + 1)]
      simp

theorem textConnRun_eq (chunks : List (List Char)) :
    textConnRun chunks = textReqsFrom 0 chunks := by
  simpa using textConnRun_foldl chunks 0 []

theorem textReqsFrom_length (n : Nat) (chunks : List (List Char)) :
    (textReqsFrom n chunks).length = chunks.length := by
  induction chunks generalizing n with
  | nil => rfl
  | cons c cs ih => simp [textReqsFrom, ih]

theorem textReqsFrom_ids (n : Nat) (chunks : List (List Char)) :
    (textReqsFrom n chunks).map (fun r => r.id)
      = (List.range' n chunks.length).map some := by
  induction chunks generalizing n with
  | nil => rfl
  | cons c cs ih => simp [textReqsFrom, List.range'_succ, ih]

theorem textReqsFrom_commands (n : Nat) (chunks : List (List Char)) :
    (textReqsFrom n chunks).map (fun r => r.command) = chunks.map jsTrim := by
  induction chunks generalizing n with
  | nil => rfl
  | cons c cs ih => simp [textReqsFrom, ih]

theorem textReqsFrom_payload (n : Nat) (chunks : List (List Char)) :
    ∀ r ∈ textReqsFrom n chunks, r.payload = none := by
  induction chunks generalizing n with
  | nil => intro r hr; cases hr
  | cons c cs ih =>
      intro r hr
      rcases List.mem_cons.mp hr with rfl | hr
      · rfl
      · exact ih (n + 1) r hr

/-! ## Claim theorems: C5 and C6 -/

/-- C5 counterexample: the claim predicts that a single socket read carrying the
two newline-terminated lines `a` and `b` dispatches two requests, with commands
`a` and `b` and ids 0 and 1.  The text-branch handler instead dispatches exactly
one request per read, whose command is the whole chunk trimmed (`a\nb`), id 0. -/
theorem C5_counterexample :
    textConnRun [("a\nb\n").toList]
      = [{ command := ("a\nb").toList, payload := none, id := some 0 }] ∧
    textConnRun [("a\nb\n").toList]
      ≠ [{ command := ("a").toList, payload := none, id := some 0 },
         { command := ("b").toList, payload := none, id := some 1 }] := by
  exact ⟨by decide, by decide⟩

/-- C5 (amended): in text socket format the server constructs exactly one
request per socket read (`data` event) — not per line — with the chunk contents
trimmed of surrounding whitespace as the `command`, no payload, and a
per-connection sequence number 0, 1, 2, ... as the id used for response
correlation. -/
theorem C5_text_one_request_per_read (chunks : List (List Char)) :
    (textConnRun chunks).length = chunks.length ∧
    (textConnRun chunks).map (fun r => r.id) = (List.range chunks.length).map some ∧
    (textConnRun chunks).map (fun r => r.command) = chunks.map jsTrim ∧
    ∀ r ∈ textConnRun chunks, r.payload = none := by
  rw [textConnRun_eq]
  refine ⟨textReqsFrom_length 0 chunks, ?_, textReqsFrom_commands 0 chunks,
    textReqsFrom_payload 0 chunks⟩
  rw [textReqsFrom_ids 0 chunks, List.range_eq_range']

/-- C5 witness: the amended statement evaluated on a concrete pair of reads. -/
theorem C5_text_one_request_per_read_witness :
    (textConnRun [("x\n").toList, (" y \n").toList]).length = 2 ∧
    (textConnRun [("x\n").toList, (" y \n").toList]).map (fun r => r.id)
      = [some 0, some 1] ∧
    (textConnRun [("x\n").toList, (" y \n").toList]).map (fun r => r.command)
      = [("x").toList, ("y").toList] ∧
    ∀ r ∈ textConnRun [("x\n").toList, (" y \n").toList], r.payload = none := by
  obtain ⟨h1, h2, h3, h4⟩ :=
    C5_text_one_request_per_read [("x\n").toList, (" y \n").toList]
  refine ⟨h1, ?_, ?_, h4⟩
  · rw [h2]; decide
  · rw [h3]; decide

/-- C6: the claim states that `Start` fails if the spawned process output ends
without a `UNIX_SOCKET_PATH=` line.  The code instead leaves `socketFile` at
its initial value — the spawned command name, set by `NewChainBridge` — and the
`socketFile == ""` check therefore never fires for a non-empty command name:
`Start` proceeds to dial the command name as if it were a socket path.  The
discovery-line extraction itself works as claimed (third conjunct). -/
theorem C6_discovery_check_ineffective :
    startDiscovery ("agent").toList [("starting").toList]
        = Except.ok ("agent").toList ∧
    scanForSocketPath ("agent").toList [("starting").toList] = ("agent").toList ∧
    startDiscovery ("agent").toList
        [("log line").toList, ("UNIX_SOCKET_PATH=/tmp/appchain.sock").toList]
        = Except.ok ("/tmp/appchain.sock").toList := by
  refine ⟨rfl, by decide, rfl⟩

/-! ## Helper lemmas for the cbor decode loop -/

theorem dec_nil_of_consume {Msg : Type} (dec : List Nat → Option (Msg × Nat))
    (hconsume : ∀ buffer m n, dec buffer = some (m, n) → 0 < n ∧ n ≤ buffer.length) :
    dec [] = none := by
  cases h : dec [] with
  | none => rfl
  | some p =>
      obtain ⟨hpos, hle⟩ := hconsume [] p.1 p.2 (by simpa using h)
      simp at hle
      omega

theorem decodeLoopFuel_irrel {Msg : Type} (dec : List Nat → Option (Msg × Nat))
    (hconsume : ∀ buffer m n, dec buffer = some (m, n) → 0 < n ∧ n ≤ buffer.length) :
    ∀ (f₁ f₂ : Nat) (buffer : List Nat), buffer.length ≤ f₁ → buffer.length ≤ f₂ →
      decodeLoopFuel dec f₁ buffer = decodeLoopFuel dec f₂ buffer := by
  intro f₁
  induction f₁ with
  | zero =>
      intro f₂ buffer h₁ h₂
      have hb : buffer = [] := List.length_eq_zero.mp (Nat.le_zero.mp h₁)
      subst hb
      cases f₂ <;> simp [decodeLoopFuel]
  | succ f ih =>
      intro f₂ buffer h₁ h₂
      cases f₂ with
      | zero =>
          have hb : buffer = [] := List.length_eq_zero.mp (Nat.le_zero.mp h₂)
          subst hb
          simp [decodeLoopFuel]
      | succ g =>
          by_cases hb : buffer = []
          · subst hb; simp [decodeLoopFuel]
          · simp only [decodeLoopFuel, if_neg hb]
            cases hd : dec buffer with
            | none => rfl
            | some p =>
                obtain ⟨m, n⟩ := p
                obtain ⟨hpos, hle⟩ := hconsume buffer m n hd
                have hlt : (buffer.drop n).length ≤ f := by
                  simp only [List.length_drop]
                  have : buffer.length ≠ 0 := by simpa using hb
                  omega
                have hlt₂ : (buffer.drop n).length ≤ g := by
                  simp only [List.length_drop]
                  have : buffer.length ≠ 0 := by simpa using hb
                  omega
                dsimp only
                rw [ih g (buffer.drop n) hlt hlt₂]

theorem decodeLoop_eq {Msg : Type} (dec : List Nat → Option (Msg × Nat))
    (hconsume : ∀ buffer m n, dec buffer = some (m, n) → 0 < n ∧ n ≤ buffer.length)
    (buffer : List Nat) :
    decodeLoop dec buffer =
      match dec buffer with
      | none => ([], buffer)
      | some (m, n) =>
          let r := decodeLoop dec (buffer.drop n)
          (m :: r.1, r.2) := by
  by_cases hb : buffer = []
  · subst hb
    rw [dec_nil_of_consume dec hconsume]
    simp [decodeLoop, decodeLoopFuel]
  · obtain ⟨k, hk⟩ : ∃ k, buffer.length = k + 1 := by
      cases hh : buffer with
      | nil => exact absurd hh hb
      | cons a t => exact ⟨t.length, by simp⟩
    unfold decodeLoop
    rw [hk]
    simp only [decodeLoopFuel, if_neg hb]
    cases hd : dec buffer with
    | none => rfl
    | some p =>
        obtain ⟨m, n⟩ := p
        obtain ⟨hpos, hle⟩ := hconsume buffer m n hd
        have hdl : (buffer.drop n).length ≤ k := by
          simp only [List.length_drop]; omega
        dsimp only
        rw [decodeLoopFuel_irrel dec hconsume k (buffer.drop n).length (buffer.drop n) hdl le_rfl]

theorem decodeLoop_leftover_aux {Msg : Type} (dec : List Nat → Option (Msg × Nat))
    (hconsume : ∀ buffer m n, dec buffer = some (m, n) → 0 < n ∧ n ≤ buffer.length) :
    ∀ (k : Nat) (buffer : List Nat), buffer.length ≤ k →
      dec (decodeLoop dec buffer).2 = none := by
  intro k
  induction k with
  | zero =>
      intro buffer h
      have hb : buffer = [] := List.length_eq_zero.mp (Nat.le_zero.mp h)
      subst hb
      exact dec_nil_of_consume dec hconsume
  | succ k ih =>
      intro buffer h
      rw [decodeLoop_eq dec hconsume buffer]
      cases hd : dec buffer with
      | none => exact hd
      | some p =>
          obtain ⟨m, n⟩ := p
          obtain ⟨hpos, hle⟩ := hconsume buffer m n hd
          have hnz : buffer ≠ [] := by
            intro hc; subst hc; simp at hle; omega
          have : (buffer.drop n).length ≤ k := by
            simp only [List.length_drop]
            have : buffer.length ≠ 0 := by simpa using hnz
            omega
          simpa using ih (buffer.drop n) this

theorem decodeLoop_stalled {Msg : Type} (dec : List Nat → Option (Msg × Nat))
    (hconsume : ∀ buffer m n, dec buffer = some (m, n) → 0 < n ∧ n ≤ buffer.length)
    (buffer : List Nat) :
    decodeLoop dec (decodeLoop dec buffer).2 = ([], (decodeLoop dec buffer).2) := by
  rw [decodeLoop_eq dec hconsume]
  rw [decodeLoop_leftover_aux dec hconsume buffer.length buffer le_rfl]

theorem decodeLoop_append {Msg : Type} (dec : List Nat → Option (Msg × Nat))
    (hconsume : ∀ buffer m n, dec buffer = some (m, n) → 0 < n ∧ n ≤ buffer.length)
    (hextend : ∀ buffer extra m n, dec buffer = some (m, n) → dec (buffer ++ extra) = some (m, n)) :
    ∀ (k : Nat) (buffer extra : List Nat), buffer.length ≤ k →
      decodeLoop dec (buffer ++ extra) =
        ((decodeLoop dec buffer).1 ++ (decodeLoop dec ((decodeLoop dec buffer).2 ++ extra)).1,
         (decodeLoop dec ((decodeLoop dec buffer).2 ++ extra)).2) := by
  intro k
  induction k with
  | zero =>
      intro buffer extra h
      have hb : buffer = [] := List.length_eq_zero.mp (Nat.le_zero.mp h)
      subst hb
      simp [decodeLoop, decodeLoopFuel]
  | succ k ih =>
      intro buffer extra h
      rw [decodeLoop_eq dec hconsume buffer]
      cases hd : dec buffer with
      | none => simp
      | some p =>
          obtain ⟨m, n⟩ := p
          obtain ⟨hpos, hle⟩ := hconsume buffer m n hd
          have hnz : buffer ≠ [] := by
            intro hc; subst hc; simp at hle; omega
          rw [decodeLoop_eq dec hconsume (buffer ++ extra),
            hextend buffer extra m n hd]
          simp only
          rw [List.drop_append_of_le_length hle]
          have hdl : (buffer.drop n).length ≤ k := by
            simp only [List.length_drop]
            have : buffer.length ≠ 0 := by simpa using hnz
            omega
          rw [ih (buffer.drop n) extra hdl]
          simp

theorem cborConnRun_foldl {Msg : Type} (dec : List Nat → Option (Msg × Nat))
    (hconsume : ∀ buffer m n, dec buffer = some (m, n) → 0 < n ∧ n ≤ buffer.length)
    (hextend : ∀ buffer extra m n, dec buffer = some (m, n) → dec (buffer ++ extra) = some (m, n)) :
    ∀ (chunks : List (List Nat)) (acc : List Msg) (buffer : List Nat),
      decodeLoop dec buffer = ([], buffer) →
      List.foldl (cborDataHandler dec) (acc, buffer) chunks
        = (acc ++ (decodeLoop dec (buffer ++ chunks.flatten)).1,
           (decodeLoop dec (buffer ++ chunks.flatten)).2) := by
  intro chunks
  induction chunks with
  | nil =>
      intro acc buffer hstall
      simp [hstall]
  | cons c cs ih =>
      intro acc buffer hstall
      simp only [List.foldl_cons, cborDataHandler]
      rw [ih (acc ++ (decodeLoop dec (buffer ++ c)).1) (decodeLoop dec (buffer ++ c)).2
        (decodeLoop_stalled dec hconsume (buffer ++ c))]
      rw [List.flatten_cons, ← List.append_assoc,
        decodeLoop_append dec hconsume hextend (buffer ++ c).length (buffer ++ c) cs.flatten le_rfl]
      simp

theorem decodeLoop_stream {Msg : Type} (enc : Msg → List Nat)
    (dec : List Nat → Option (Msg × Nat))
    (hconsume : ∀ buffer m n, dec buffer = some (m, n) → 0 < n ∧ n ≤ buffer.length)
    (hdecenc : ∀ m rest, dec (enc m ++ rest) = some (m, (enc m).length)) :
    ∀ ms : List Msg, decodeLoop dec ((ms.map enc).flatten) = (ms, []) := by
  intro ms
  induction ms with
  | nil => simp [decodeLoop, decodeLoopFuel]
  | cons m rest ih =>
      rw [List.map_cons, List.flatten_cons, decodeLoop_eq dec hconsume,
        hdecenc m (rest.map enc).flatten]
      simp only
      rw [List.drop_left, ih]

/-! ## Claim theorems: C3 -/

/-- C3: for every correctly encoded stream of messages and every chunking of
its bytes across socket reads, the cbor-branch accumulate-then-decode loop
dispatches exactly the original messages, in stream order, each exactly once,
leaving an empty buffer (first conjunct); a decode failure leaves the
accumulation buffer untouched, waiting for more data (second conjunct); a
successful decode dispatches the decoded value and removes exactly the
consumed bytes from the buffer front, continuing the loop (third conjunct).
The decoder contract (the external CBOR codec) enters as the hypotheses
`hconsume` (a decode consumes at least one and at most all buffered bytes),
`hextend` (a successful decode is determined by the consumed prefix) and
`hdecenc` (decoding a buffer starting with one full encoded message yields
that message and consumes exactly its bytes). -/
theorem C3_cbor_chunking_independence {Msg : Type}
    (enc : Msg → List Nat) (dec : List Nat → Option (Msg × Nat))
    (hconsume : ∀ buffer m n, dec buffer = some (m, n) → 0 < n ∧ n ≤ buffer.length)
    (hextend : ∀ buffer extra m n, dec buffer = some (m, n) → dec (buffer ++ extra) = some (m, n))
    (hdecenc : ∀ m rest, dec (enc m ++ rest) = some (m, (enc m).length))
    (ms : List Msg) (chunks : List (List Nat))
    (hchunks : chunks.flatten = (ms.map enc).flatten) :
    cborConnRun dec chunks = (ms, []) ∧
    (∀ (acc : List Msg) (buffer chunk : List Nat), dec (buffer ++ chunk) = none →
        cborDataHandler dec (acc, buffer) chunk = (acc, buffer ++ chunk)) ∧
    (∀ (buffer : List Nat) (m : Msg) (n : Nat), dec buffer = some (m, n) →
        decodeLoop dec buffer
          = (m :: (decodeLoop dec (buffer.drop n)).1, (decodeLoop dec (buffer.drop n)).2)) := by
  refine ⟨?_, ?_, ?_⟩
  · unfold cborConnRun
    rw [cborConnRun_foldl dec hconsume hextend chunks [] [] rfl]
    simp only [List.nil_append]
    rw [hchunks, decodeLoop_stream enc dec hconsume hdecenc ms]
  · intro acc buffer chunk hfail
    unfold cborDataHandler
    rw [decodeLoop_eq dec hconsume, hfail]
    simp
  · intro buffer m n hok
    rw [decodeLoop_eq dec hconsume buffer, hok]


theorem pairDec_consume :
    ∀ (buffer : List Nat) (m n : Nat), pairDec buffer = some (m, n) → 0 < n ∧ n ≤ buffer.length := by
  intro buffer m n h
  match buffer, h with
  | a :: b :: t, h =>
      simp only [pairDec, Option.some.injEq, Prod.mk.injEq] at h
      obtain ⟨rfl, rfl⟩ := h
      simp

theorem pairDec_extend :
    ∀ (buffer extra : List Nat) (m n : Nat),
      pairDec buffer = some (m, n) → pairDec (buffer ++ extra) = some (m, n) := by
  intro buffer extra m n h
  match buffer, h with
  | a :: b :: t, h => simpa [pairDec] using h

theorem pairDec_enc :
    ∀ (m : Nat) (rest : List Nat), pairDec (pairEnc m ++ rest) = some (m, (pairEnc m).length) := by
  intro m rest
  rfl

/-- C3 witness: the stream encoding the two messages 5 and 7, chunked so that
the second read splits the first message, dispatches exactly [5, 7]. -/
theorem C3_cbor_chunking_independence_witness :
    ([[1], [5, 1, 7]] : List (List Nat)).flatten = (([5, 7]).map pairEnc).flatten ∧
    cborConnRun pairDec [[1], [5, 1, 7]] = ([5, 7], []) :=
  ⟨by decide,
   (C3_cbor_chunking_independence pairEnc pairDec pairDec_consume pairDec_extend pairDec_enc
     [5, 7] [[1], [5, 1, 7]] (by decide)).1⟩

/-! ## Helper lemmas for the nonce logic -/

theorem runProcessTxs_success_some (t : Nat) (as : List ProcessTxArgs)
    (hsucc : ∀ x ∈ as, x.hasTx = true) :
    (runProcessTxs true (some t) as).2 = List.range' t as.length ∧
    (runProcessTxs true (some t) as).1 = some (t + as.length) := by
  induction as generalizing t with
  | nil => simp [runProcessTxs]
  | cons a rest ih =>
      have ha : a.hasTx = true := hsucc a (by simp)
      have hrest : ∀ x ∈ rest, x.hasTx = true := fun x hx => hsucc x (by simp [hx])
      obtain ⟨ih₁, ih₂⟩ := ih (t + 1) hrest
      constructor
      · simp [runProcessTxs, processTx, ha, txUsedNonce, ih₁, List.range'_succ]
      · simp [runProcessTxs, processTx, ha, txUsedNonce, ih₂]
        omega

theorem runProcessTxs_success_get (tracked : Option Nat) (as : List ProcessTxArgs)
    (hsucc : ∀ x ∈ as, x.hasTx = true)
    (i : Nat) (h : i + 1 < (runProcessTxs true tracked as).2.length) :
    (runProcessTxs true tracked as).2.get ⟨i + 1, h⟩
      = (runProcessTxs true tracked as).2.get ⟨i, by omega⟩ + 1 := by
  cases tracked with
  | some t =>
      have := (runProcessTxs_success_some t as hsucc).1
      simp only [List.get_eq_getElem]
      simp only [this] at h ⊢
      simp only [List.getElem_range']
      omega
  | none =>
      cases as with
      | nil => simp [runProcessTxs] at h
      | cons a rest =>
          have ha : a.hasTx = true := hsucc a (by simp)
          have hrest : ∀ x ∈ rest, x.hasTx = true := fun x hx => hsucc x (by simp [hx])
          have hr := (runProcessTxs_success_some (a.chainNonce + 1) rest hrest).1
          have hus : (runProcessTxs true none (a :: rest)).2
              = a.chainNonce :: List.range' (a.chainNonce + 1) rest.length := by
            simp [runProcessTxs, processTx, ha, txUsedNonce, hr]
          simp only [List.get_eq_getElem]
          simp only [hus] at h ⊢
          cases i with
          | zero => simp [List.getElem_range']
          | succ j =>
              simp only [List.getElem_cons_succ]
              simp only [List.length_cons, List.length_range'] at h
              simp [List.getElem_range']
              omega

/-! ## Claim theorems: C2 -/

/-- C2: with the nonce option enabled, a successful broadcast immediately sets
the tracked nonce to the used nonce plus one (first conjunct), independently
of the confirmation-polling outcome (second conjunct); consecutive successful
submissions use successive nonces (third conjunct); and the tracked nonce
never decreases, over any mix of outcomes (fourth conjunct). -/
theorem C2_nonce_tracking (tracked : Option Nat) (a : ProcessTxArgs)
    (as : List ProcessTxArgs) (hsucc : ∀ x ∈ as, x.hasTx = true) :
    (a.hasTx = true → (processTx true tracked a).1 = some ((processTx true tracked a).2.1 + 1)) ∧
    (∀ st₁ st₂ : TsStatus,
        (processTx true tracked { a with pollStatus := st₁ }).1
          = (processTx true tracked { a with pollStatus := st₂ }).1) ∧
    (∀ i (h : i + 1 < (runProcessTxs true tracked as).2.length),
        (runProcessTxs true tracked as).2.get ⟨i + 1, h⟩
          = (runProcessTxs true tracked as).2.get ⟨i, by omega⟩ + 1) ∧
    (∀ (t : Nat) (bs : List ProcessTxArgs),
        ∃ u, (runProcessTxs true (some t) bs).1 = some u ∧ t ≤ u) := by
    refine ⟨?_, ?_, runProcessTxs_success_get tracked as hsucc, ?_⟩
    · intro ha
      simp [processTx, ha]
    · intro st₁ st₂
      by_cases ha : a.hasTx = true <;> simp [processTx, ha]
    · intro t bs
      induction bs generalizing t with
      | nil => exact ⟨t, rfl, le_rfl⟩
      | cons b rest ih =>
          by_cases hb : b.hasTx = true
          · obtain ⟨u, hu, htu⟩ := ih (t + 1)
            refine ⟨u, ?_, by omega⟩
            simp [runProcessTxs, processTx, hb, txUsedNonce]
            simpa [runProcessTxs] using hu
          · obtain ⟨u, hu, htu⟩ := ih t
            refine ⟨u, ?_, htu⟩
            simp only [Bool.not_eq_true] at hb
            simp [runProcessTxs, processTx, hb]
            simpa [runProcessTxs] using hu

/-- C2 witness: starting untracked, two successful submissions with chain
nonce 5 use nonces 5 and 6, and the tracked nonce advances to 6 then 7. -/
theorem C2_nonce_tracking_witness :
    (∀ x ∈ ([{ chainNonce := 5, hasTx := true, pollStatus := TsStatus.PENDING,
               pollMsg := [], txHash := [] },
             { chainNonce := 0, hasTx := true, pollStatus := TsStatus.SUCCESS,
               pollMsg := [], txHash := [] }] : List ProcessTxArgs), x.hasTx = true) ∧
    (runProcessTxs true none
        [{ chainNonce := 5, hasTx := true, pollStatus := TsStatus.PENDING,
           pollMsg := [], txHash := [] },
         { chainNonce := 0, hasTx := true, pollStatus := TsStatus.SUCCESS,
           pollMsg := [], txHash := [] }]).2.get ⟨1, by decide⟩
      = (runProcessTxs true none
          [{ chainNonce := 5, hasTx := true, pollStatus := TsStatus.PENDING,
             pollMsg := [], txHash := [] },
           { chainNonce := 0, hasTx := true, pollStatus := TsStatus.SUCCESS,
             pollMsg := [], txHash := [] }]).2.get ⟨0, by decide⟩ + 1 := by
  refine ⟨by decide, ?_⟩
  exact (C2_nonce_tracking none
    { chainNonce := 5, hasTx := true, pollStatus := TsStatus.PENDING,
      pollMsg := [], txHash := [] }
    [{ chainNonce := 5, hasTx := true, pollStatus := TsStatus.PENDING,
       pollMsg := [], txHash := [] },
     { chainNonce := 0, hasTx := true, pollStatus := TsStatus.SUCCESS,
       pollMsg := [], txHash := [] }] (by decide)).2.2.1 0 (by decide)

/-! ## Claim theorems: C4, C8, C9 -/

/-- C4: two concurrent calls with distinct ids A and B are both registered;
when the response carrying id B arrives before the one carrying id A, the
caller that issued A still receives exactly the response with id A and the
caller that issued B exactly the one with id B (first three conjuncts); a
response whose id has no registered channel — e.g. one arriving after the
call's timeout removed the slot — is discarded without error (fourth
conjunct); and in any run, every delivery goes to the channel registered
under the response's own id (fifth conjunct). -/
theorem C4_response_correlation (A B : Nat) (rA rB : GoCommandResponse)
    (hAB : A ≠ B) (hA : rA.id = A) (hB : rB.id = B) :
    receivedBy (runOnData (registerCall (registerCall ⟨[], []⟩ A) B) [rB, rA]) A = [rA] ∧
    receivedBy (runOnData (registerCall (registerCall ⟨[], []⟩ A) B) [rB, rA]) B = [rB] ∧
    (runOnData (registerCall (registerCall ⟨[], []⟩ A) B) [rB, rA]).delivered
      = [(B, rB), (A, rA)] ∧
    (∀ (st : CorrState) (r : GoCommandResponse), r.id ∉ st.pending → onData st r = st) ∧
    (∀ (st : CorrState) (rs : List GoCommandResponse) (d : Nat × GoCommandResponse),
        d ∈ (runOnData st rs).delivered → d ∈ st.delivered ∨ d.2.id = d.1) := by
  have hrun : runOnData (registerCall (registerCall ⟨[], []⟩ A) B) [rB, rA]
      = ⟨[], [(B, rB), (A, rA)]⟩ := by
    simp only [runOnData, registerCall, List.foldl_cons, List.foldl_nil]
    rw [show onData ⟨[] ++ [A] ++ [B], []⟩ rB = ⟨[A], [(B, rB)]⟩ by
      simp [onData, hB, List.erase_cons, hAB, Ne.symm hAB]]
    simp [onData, hA, List.erase_cons]
  refine ⟨?_, ?_, ?_, ?_, ?_⟩
  · rw [hrun]
    simp [receivedBy, hAB, Ne.symm hAB]
  · rw [hrun]
    simp [receivedBy, hAB, Ne.symm hAB]
  · rw [hrun]
  · intro st r hr
    simp [onData, hr]
  · intro st rs
    induction rs generalizing st with
    | nil => intro d hd; exact Or.inl hd
    | cons r rest ih =>
        intro d hd
        simp only [runOnData, List.foldl_cons] at hd
        rcases ih (onData st r) d hd with hmem | hok
        · by_cases hp : r.id ∈ st.pending
          · simp only [onData, if_pos hp] at hmem
            rcases List.mem_append.mp hmem with h | h
            · exact Or.inl h
            · simp only [List.mem_singleton] at h
              subst h
              exact Or.inr rfl
          · simp only [onData, if_neg hp] at hmem
            exact Or.inl hmem
        · exact Or.inr hok

/-- C4 witness: concrete ids 1 and 2 with reordered responses. -/
theorem C4_response_correlation_witness :
    receivedBy (runOnData (registerCall (registerCall ⟨[], []⟩ 1) 2)
        [{ status := ("SUCCESS").toList, data := none, error := [], id := 2, tx := [] },
         { status := ("FAILURE").toList, data := none, error := [], id := 1, tx := [] }]) 1
      = [{ status := ("FAILURE").toList, data := none, error := [], id := 1, tx := [] }] ∧
    receivedBy (runOnData (registerCall (registerCall ⟨[], []⟩ 1) 2)
        [{ status := ("SUCCESS").toList, data := none, error := [], id := 2, tx := [] },
         { status := ("FAILURE").toList, data := none, error := [], id := 1, tx := [] }]) 2
      = [{ status := ("SUCCESS").toList, data := none, error := [], id := 2, tx := [] }] :=
  ⟨(C4_response_correlation 1 2
      { status := ("FAILURE").toList, data := none, error := [], id := 1, tx := [] }
      { status := ("SUCCESS").toList, data := none, error := [], id := 2, tx := [] }
      (by decide) rfl rfl).1,
   (C4_response_correlation 1 2
      { status := ("FAILURE").toList, data := none, error := [], id := 1, tx := [] }
      { status := ("SUCCESS").toList, data := none, error := [], id := 2, tx := [] }
      (by decide) rfl rfl).2.1⟩

/-- C8: `Stop` (with SIGTERM delivery succeeding, as it does for a spawned,
never-reaped process) never returns an error, and a second call returns the
very same state and no error — a no-op, not a double release; each call
disables reconnection, stops the engine when one was created, and, when a
process was spawned, signals it and removes the socket file. -/
theorem C8_stop_idempotent (s : BridgeStopState) :
    (Stop true s).2 = none ∧
    Stop true (Stop true s).1 = ((Stop true s).1, none) ∧
    (Stop true s).1.reconnect = false ∧
    (s.hasClient = true → (Stop true s).1.engineRunning = false) ∧
    (s.hasCmd = true →
        (Stop true s).1.sigTermSent = true ∧ (Stop true s).1.socketFileExists = false) := by
  by_cases hcl : s.hasClient = true <;> by_cases hcmd : s.hasCmd = true <;>
    simp_all [Stop]

/-- C8 witness: a fully-live bridge state, stopped twice. -/
theorem C8_stop_idempotent_witness :
    (Stop true ⟨true, true, true, true, false, true⟩).2 = none ∧
    Stop true (Stop true ⟨true, true, true, true, false, true⟩).1
      = ((Stop true ⟨true, true, true, true, false, true⟩).1, none) ∧
    (Stop true ⟨true, true, true, true, false, true⟩).1.sigTermSent = true ∧
    (Stop true ⟨true, true, true, true, false, true⟩).1.socketFileExists = false := by
  obtain ⟨h₁, h₂, h₃, h₄, h₅⟩ := C8_stop_idempotent ⟨true, true, true, true, false, true⟩
  exact ⟨h₁, h₂, (h₅ rfl).1, (h₅ rfl).2⟩

/-- C9: a query whose target record does not exist responds with
`RECORD_NOT_FOUND`, which has status SUCCESS and absent data — never FAILURE
(first conjunct); `networks getActive` with no active network or a dangling
active id, `nodes getNode` for an unknown identifier, and `pki getDocument`
for an unset epoch all take that path (conjuncts two to five); and every Go
data helper applied to a response with absent data returns the `ErrNoData`
sentinel rather than a zero value (last conjunct). -/
theorem C9_missing_record_success_nodata (id : Option Nat) :
    ((RECORD_NOT_FOUND id).status = TsStatus.SUCCESS ∧ (RECORD_NOT_FOUND id).data = none ∧
      (RECORD_NOT_FOUND id).status ≠ TsStatus.FAILURE) ∧
    (∀ st : AppchainQueryState, st.activeNetwork = none →
        networksGetActive st id = RECORD_NOT_FOUND id) ∧
    (∀ (st : AppchainQueryState) (nid : Nat), st.activeNetwork = some nid →
        st.networks nid = none → networksGetActive st id = RECORD_NOT_FOUND id) ∧
    (∀ (getID : List Char → Nat) (ipfsGet : List Char → List Nat)
        (st : AppchainQueryState) (ident : List Char),
        st.nodes (getID ident) = none →
        nodesGetNode getID ipfsGet true st id ident = RECORD_NOT_FOUND id) ∧
    (∀ (ipfsGet : List Char → List Nat) (st : AppchainQueryState) (epoch : Nat),
        st.pkiDocuments epoch = none →
        pkiGetDocument ipfsGet true st id epoch = RECORD_NOT_FOUND id) ∧
    (∀ r : GoCommandResponse, r.data = none →
        GetDataBool r = Except.error GoErr.noData ∧
        GetDataBytes r = Except.error GoErr.noData ∧
        GetDataUInt r = Except.error GoErr.noData ∧
        ∀ (V : Type) (dec : List Nat → Option V),
          DataUnmarshal dec r = Except.error GoErr.noData) := by
  refine ⟨⟨rfl, rfl, by simp [RECORD_NOT_FOUND]⟩, ?_, ?_, ?_, ?_, ?_⟩
  · intro st hact
    simp [networksGetActive, hact]
  · intro st nid hact hnet
    simp [networksGetActive, hact, hnet]
  · intro getID ipfsGet st ident hnode
    simp [nodesGetNode, hnode]
  · intro ipfsGet st epoch hdoc
    simp [pkiGetDocument, hdoc]
  · intro r hr
    refine ⟨?_, ?_, ?_, ?_⟩ <;> simp [GetDataBool, GetDataBytes, GetDataUInt, DataUnmarshal, hr]

/-- C9 witness: the empty query state and a data-less response. -/
theorem C9_missing_record_success_nodata_witness :
    networksGetActive ⟨none, fun _ => none, fun _ => none, fun _ => none⟩ (some 3)
      = RECORD_NOT_FOUND (some 3) ∧
    pkiGetDocument (fun _ => []) true ⟨none, fun _ => none, fun _ => none, fun _ => none⟩
        (some 3) 7
      = RECORD_NOT_FOUND (some 3) ∧
    GetDataUInt { status := ("SUCCESS").toList, data := none, error := [], id := 1, tx := [] }
      = Except.error GoErr.noData := by
  obtain ⟨h₁, h₂, h₃, h₄, h₅, h₆⟩ := C9_missing_record_success_nodata (some 3)
  exact ⟨h₂ ⟨none, fun _ => none, fun _ => none, fun _ => none⟩ rfl,
    h₅ (fun _ => []) ⟨none, fun _ => none, fun _ => none, fun _ => none⟩ 7 rfl,
    (h₆ { status := ("SUCCESS").toList, data := none, error := [], id := 1, tx := [] }
      rfl).2.2.1⟩

/-! ## Helper lemmas for the transaction queue -/

theorem drainReject_eq_map (e : Nat) (q : List Nat) :
    drainReject e q = q.map (fun t => (t, TxOutcome.reject e)) := by
  induction q with
  | nil => rfl
  | cons t rest ih => simp [drainReject, ih]

theorem range'_concat_one (s n : Nat) :
    List.range' s n ++ [s + n] = List.range' s (n + 1) := by
  have := @List.range'_concat 1 s n
  simpa using this.symm

theorem range_append_range' (r q : Nat) :
    List.range r ++ List.range' r q = List.range (r + q) := by
  have h := List.range'_append 0 r q 1
  simp only [one_mul, Nat.zero_add] at h
  rw [List.range_eq_range', List.range_eq_range', Nat.add_comm r q]
  exact h

theorem range_concat_self (n : Nat) :
    List.range n ++ [n] = List.range (n + 1) := by
  simpa using (List.range_succ n).symm

theorem filter_range_not_mem_length (b r : Nat) :
    ((List.range b).filter (fun i => !((List.range r).contains i))).length = b - r := by
  induction b with
  | zero => simp
  | succ b ih =>
      rw [List.range_succ, List.filter_append, List.length_append, ih]
      by_cases hb : b < r
      · simp [List.elem_eq_mem, hb]
        omega
      · simp [List.elem_eq_mem, hb]
        omega

theorem append_length_range (l : List Nat) (hl : l = List.range l.length) :
    l ++ [l.length] = List.range (l.length + 1) := by
  obtain ⟨n, hn⟩ : ∃ n, l.length = n := ⟨_, rfl⟩
  rw [hn] at hl ⊢
  rw [hl, range_concat_self]

theorem txInv_init : TxInv txInit := by
  refine ⟨rfl, rfl, rfl, rfl, ?_, ?_⟩ <;> simp [txInit]

theorem txInv_step {σ σ' : TxQState} (hinv : TxInv σ) (hstep : TxStep σ σ') : TxInv σ' := by
  obtain ⟨h1, h2, h3, h4, h5, h6⟩ := hinv
  cases hstep with
  | submit_idle h =>
      have hcr : σ.crashed = false := by
        cases hc : σ.crashed
        · rfl
        · have := (h6 hc).1
          rw [h] at this
          cases this
      obtain ⟨hb, hqe⟩ := (h5 hcr).2 h
      have hnext : σ.nextId = σ.resolved.length := by rw [h4, hqe]; simp
      refine ⟨?_, ?_, ?_, ?_, ?_, ?_⟩
      · simpa [submitIdleState, resolvedIds] using h1
      · show σ.begun ++ (σ.txQueue ++ [σ.nextId]).take 1
          = List.range (σ.begun ++ (σ.txQueue ++ [σ.nextId]).take 1).length
        rw [hqe]
        show σ.begun ++ [σ.nextId] = List.range (σ.begun ++ [σ.nextId]).length
        have hlen1 : (σ.begun ++ [σ.nextId]).length = σ.begun.length + 1 := by simp
        rw [hlen1, hnext, ← hb]
        exact append_length_range σ.begun h2
      · show σ.txQueue ++ [σ.nextId]
          = List.range' σ.resolved.length (σ.txQueue ++ [σ.nextId]).length
        rw [hqe, hnext]
        simp
      · show σ.nextId + 1 = σ.resolved.length + (σ.txQueue ++ [σ.nextId]).length
        rw [hqe, hnext]
        simp
      · intro _
        constructor
        · intro _
          refine ⟨?_, by simp [submitIdleState]⟩
          show (σ.begun ++ (σ.txQueue ++ [σ.nextId]).take 1).length = σ.resolved.length + 1
          rw [hqe]
          simp [hb]
        · intro hfalse
          cases hfalse
      · intro hc'
        rw [show (submitIdleState σ).crashed = σ.crashed from rfl, hcr] at hc'
        cases hc'
  | submit_busy h =>
      refine ⟨?_, ?_, ?_, ?_, ?_, ?_⟩
      · simpa [submitBusyState, resolvedIds] using h1
      · simpa [submitBusyState] using h2
      · show σ.txQueue ++ [σ.nextId]
          = List.range' σ.resolved.length (σ.txQueue ++ [σ.nextId]).length
        conv_lhs => rw [h3, h4]
        rw [range'_concat_one]
        simp
      · show σ.nextId + 1 = σ.resolved.length + (σ.txQueue ++ [σ.nextId]).length
        rw [h4]
        simp
        omega
      · intro hcr'
        have hcr : σ.crashed = false := hcr'
        constructor
        · intro _
          exact ⟨((h5 hcr).1 h).1, by simp [submitBusyState]⟩
        · intro hfalse
          rw [show (submitBusyState σ).isProcessing = σ.isProcessing from rfl, h] at hfalse
          cases hfalse
      · intro hc'
        obtain ⟨hp, hble⟩ := h6 hc'
        exact ⟨hp, by simpa [submitBusyState] using hble⟩
  | task_done out t rest hb hc hq =>
      obtain ⟨hb1, _⟩ := (h5 hc).1 hb
      have hlen : σ.txQueue.length = rest.length + 1 := by rw [hq]; rfl
      have hcons : t :: rest
          = σ.resolved.length :: List.range' (σ.resolved.length + 1) rest.length := by
        rw [← hq, h3, hlen]
        simp [List.range'_succ]
      injection hcons with ht hrest
      refine ⟨?_, ?_, ?_, ?_, ?_, ?_⟩
      · show (σ.resolved ++ [(t, out)]).map Prod.fst
          = List.range (σ.resolved ++ [(t, out)]).length
        rw [List.map_append]
        simp only [List.map_cons, List.map_nil, List.length_append, List.length_cons,
          List.length_nil]
        rw [show σ.resolved.map Prod.fst = resolvedIds σ from rfl, h1, ht, range_concat_self]
      · show σ.begun ++ rest.take 1 = List.range (σ.begun ++ rest.take 1).length
        cases rest with
        | nil => simpa using h2
        | cons x rest2 =>
            have hx : x = σ.resolved.length + 1 := by
              simp only [List.length_cons, List.range'_succ] at hrest
              injection hrest
            show σ.begun ++ [x] = List.range (σ.begun ++ [x]).length
            have hlen1 : (σ.begun ++ [x]).length = σ.begun.length + 1 := by simp
            rw [hlen1, hx, ← hb1]
            exact append_length_range σ.begun h2
      · show rest = List.range' (σ.resolved ++ [(t, out)]).length rest.length
        simpa using hrest
      · show σ.nextId = (σ.resolved ++ [(t, out)]).length + rest.length
        rw [h4, hlen]
        simp
        omega
      · intro _
        constructor
        · intro hproc'
          cases rest with
          | nil => cases hproc'
          | cons x rest2 =>
              refine ⟨?_, by simp [taskDoneState]⟩
              show (σ.begun ++ [x]).length = (σ.resolved ++ [(t, out)]).length + 1
              simp [hb1]
        · intro hproc'
          cases rest with
          | nil =>
              refine ⟨?_, rfl⟩
              show (σ.begun ++ ([] : List Nat).take 1).length
                = (σ.resolved ++ [(t, out)]).length
              simp [hb1]
          | cons x rest2 => cases hproc'
      · intro hc'
        cases hc'
  | queue_crash e hb hc =>
      obtain ⟨hb1, hq1⟩ := (h5 hc).1 hb
      have hq0 : 0 < σ.txQueue.length := List.length_pos.mpr hq1
      refine ⟨?_, ?_, ?_, ?_, ?_, ?_⟩
      · show (σ.resolved ++ drainReject e σ.txQueue).map Prod.fst
          = List.range (σ.resolved ++ drainReject e σ.txQueue).length
        rw [drainReject_eq_map, List.map_append]
        have hmapq : ∀ q : List Nat,
            (q.map (fun t => (t, TxOutcome.reject e))).map Prod.fst = q := by
          intro q
          induction q with
          | nil => rfl
          | cons a q ih => simp only [List.map_cons, ih]
        rw [hmapq]
        simp only [List.length_append, List.length_map]
        rw [show σ.resolved.map Prod.fst = resolvedIds σ from rfl, h1]
        conv_lhs => rw [h3]
        exact range_append_range' _ _
      · simpa [queueCrashState] using h2
      · rfl
      · show σ.nextId = (σ.resolved ++ drainReject e σ.txQueue).length + ([] : List Nat).length
        rw [drainReject_eq_map]
        simp [h4]
      · intro hc'
        cases hc'
      · intro _
        refine ⟨rfl, ?_⟩
        show σ.begun.length ≤ (σ.resolved ++ drainReject e σ.txQueue).length
        rw [drainReject_eq_map]
        simp [hb1]
        omega

theorem txInv_reachable {σ : TxQState} (h : TxReachable σ) : TxInv σ := by
  induction h with
  | init => exact txInv_init
  | step hre hstep ih => exact txInv_step ih hstep

theorem txSteps_head {σ σ' σ'' : TxQState} (h : TxStep σ σ') (hs : TxSteps σ' σ'') :
    TxSteps σ σ'' := by
  induction hs with
  | refl => exact TxSteps.tail (TxSteps.refl σ) h
  | tail hs1 hst ih => exact TxSteps.tail ih hst

/-- Draining the queue: from any invariant-satisfying, non-crashed state whose
worker runs whenever the queue is nonempty, a sequence of `task_done` events
settles every queued task, ending with the futures of all submitted tasks
settled in submission order. -/
theorem txDrain : ∀ (k : Nat) (σ : TxQState), TxInv σ → σ.crashed = false →
    σ.txQueue.length = k → (σ.txQueue ≠ [] → σ.isProcessing = true) →
    ∃ σ'', TxSteps σ σ'' ∧ σ''.txQueue = [] ∧ σ''.nextId = σ.nextId ∧
      resolvedIds σ'' = List.range σ.nextId ∧ ∀ p ∈ σ.resolved, p ∈ σ''.resolved := by
  intro k
  induction k with
  | zero =>
      intro σ hinv hc hlen hproc
      have hq : σ.txQueue = [] := List.length_eq_zero.mp hlen
      refine ⟨σ, TxSteps.refl σ, hq, rfl, ?_, fun p hp => hp⟩
      obtain ⟨h1, _, _, h4, _, _⟩ := hinv
      rw [h1, h4, hq]
      simp
  | succ k ih =>
      intro σ hinv hc hlen hproc
      obtain ⟨t, rest, hq⟩ : ∃ t rest, σ.txQueue = t :: rest := by
        cases hqq : σ.txQueue with
        | nil => rw [hqq] at hlen; cases hlen
        | cons a b => exact ⟨a, b, rfl⟩
      have hproc' : σ.isProcessing = true := hproc (by rw [hq]; simp)
      have hstep := TxStep.task_done σ
        (TxOutcome.resolve
          { status := TsStatus.PENDING, data := none, error := none, id := none, tx := none })
        t rest hproc' hc hq
      have hinv₁ := txInv_step hinv hstep
      have hlen₁ : (taskDoneState σ t rest
          (TxOutcome.resolve
            { status := TsStatus.PENDING, data := none, error := none, id := none,
              tx := none })).txQueue.length = k := by
        have : σ.txQueue.length = rest.length + 1 := by rw [hq]; rfl
        rw [hlen] at this
        simpa [taskDoneState] using this.symm
      have hproc₁ : (taskDoneState σ t rest
          (TxOutcome.resolve
            { status := TsStatus.PENDING, data := none, error := none, id := none,
              tx := none })).txQueue ≠ [] →
          (taskDoneState σ t rest
            (TxOutcome.resolve
              { status := TsStatus.PENDING, data := none, error := none, id := none,
                tx := none })).isProcessing = true := by
        intro hne
        cases rest with
        | nil => exact absurd rfl hne
        | cons x r2 => rfl
      obtain ⟨σ'', hsteps, hq'', hnid, hres, hsub⟩ :=
        ih _ hinv₁ rfl hlen₁ hproc₁
      refine ⟨σ'', txSteps_head hstep hsteps, hq'', hnid, hres, ?_⟩
      intro p hp
      exact hsub p (List.mem_append.mpr (Or.inl hp))

/-! ## Claim theorems: C1, C7, C10 -/

/-- C1: in every reachable TxHandler state, futures have settled exactly in
submission order (the settled ids are 0, 1, ..., in order — first conjunct);
a task that has begun processing is preceded by the settled futures of every
earlier submission (second conjunct); at most one begun task is unsettled at
any instant (third conjunct); and whichever event begins processing of task N
does so only when the futures of exactly the tasks 0, ..., N−1 have settled —
with success, failure, or PENDING alike (fourth conjunct). -/
theorem C1_queue_fifo_single_flight (σ : TxQState) (hre : TxReachable σ) :
    resolvedIds σ = List.range σ.resolved.length ∧
    (∀ m ∈ σ.begun, ∀ k, k < m → k ∈ resolvedIds σ) ∧
    (inFlight σ).length ≤ 1 ∧
    (∀ σ', TxStep σ σ' → ∀ m, m ∈ σ'.begun → m ∉ σ.begun →
        resolvedIds σ' = List.range m) := by
  obtain ⟨h1, h2, h3, h4, h5, h6⟩ := txInv_reachable hre
  have hble : σ.begun.length ≤ σ.resolved.length + 1 := by
    cases hc : σ.crashed
    · by_cases hp : σ.isProcessing = true
      · exact le_of_eq ((h5 hc).1 hp).1
      · have := ((h5 hc).2 (by simpa using hp)).1
        omega
    · have := (h6 hc).2
      omega
  refine ⟨h1, ?_, ?_, ?_⟩
  · intro m hm k hk
    rw [h2] at hm
    rw [h1]
    simp only [List.mem_range] at hm ⊢
    omega
  · obtain ⟨b, hb2, hb3⟩ : ∃ b, σ.begun = List.range b ∧ b = σ.begun.length :=
      ⟨σ.begun.length, h2, rfl⟩
    obtain ⟨r, hr2, hr3⟩ : ∃ r, resolvedIds σ = List.range r ∧ r = σ.resolved.length :=
      ⟨σ.resolved.length, h1, rfl⟩
    have hfl : (inFlight σ).length = b - r := by
      unfold inFlight
      simp only [hb2, hr2]
      exact filter_range_not_mem_length b r
    omega
  · intro σ' hstep m hm hnm
    cases hstep with
    | submit_idle h =>
        have hcr : σ.crashed = false := by
          cases hcc : σ.crashed
          · rfl
          · have := (h6 hcc).1
            rw [h] at this
            cases this
        obtain ⟨hb, hqe⟩ := (h5 hcr).2 h
        have hnext : σ.nextId = σ.resolved.length := by rw [h4, hqe]; simp
        have hm' : m = σ.nextId := by
          have : m ∈ σ.begun ++ [σ.nextId] := by
            simpa [submitIdleState, hqe] using hm
          rcases List.mem_append.mp this with hmm | hmm
          · exact absurd hmm hnm
          · simpa using hmm
        show resolvedIds (submitIdleState σ) = List.range m
        have : resolvedIds (submitIdleState σ) = resolvedIds σ := rfl
        rw [this, h1, hnext.symm.trans hm'.symm]
    | submit_busy h => exact absurd hm hnm
    | task_done out t rest hbp hcp hqp =>
        have hlen : σ.txQueue.length = rest.length + 1 := by rw [hqp]; rfl
        have hcons : t :: rest
            = σ.resolved.length :: List.range' (σ.resolved.length + 1) rest.length := by
          rw [← hqp, h3, hlen]
          simp [List.range'_succ]
        injection hcons with ht hrest
        cases rest with
        | nil =>
            have : m ∈ σ.begun := by simpa [taskDoneState] using hm
            exact absurd this hnm
        | cons x rest2 =>
            have hx : x = σ.resolved.length + 1 := by
              simp only [List.length_cons, List.range'_succ] at hrest
              injection hrest
            have hm' : m = x := by
              have : m ∈ σ.begun ++ [x] := by simpa [taskDoneState] using hm
              rcases List.mem_append.mp this with hmm | hmm
              · exact absurd hmm hnm
              · simpa using hmm
            show resolvedIds (taskDoneState σ t (x :: rest2) out) = List.range m
            have hres' : resolvedIds (taskDoneState σ t (x :: rest2) out)
                = resolvedIds σ ++ [t] := by
              simp [taskDoneState, resolvedIds]
            rw [hres', h1, ht, range_concat_self, hm', hx]
    | queue_crash e hbp hcp => exact absurd hm hnm

/-- C1 witness: the state reached by one idle submission — task 0 begun, no
future settled, exactly one task in flight. -/
theorem C1_queue_fifo_single_flight_witness :
    TxReachable ⟨[0], true, false, 1, [], [0]⟩ ∧
    resolvedIds ⟨[0], true, false, 1, [], [0]⟩ = List.range 0 ∧
    (inFlight ⟨[0], true, false, 1, [], [0]⟩).length ≤ 1 := by
  have hre : TxReachable ⟨[0], true, false, 1, [], [0]⟩ :=
    TxReachable.step TxReachable.init (TxStep.submit_idle txInit rfl)
  obtain ⟨ha, hb, hc, hd⟩ := C1_queue_fifo_single_flight _ hre
  exact ⟨hre, ha, hc⟩

/-- C7: when `processTx` for the head task throws, the per-task catch settles
only that task's future, as a rejection (second conjunct), leaving every
later-submitted task unsettled (third conjunct); the worker stays running and
advances to the remaining queue (fourth conjunct); and from there a sequence
of worker events settles the futures of all remaining submitted tasks — one
failing task never blocks the rest of the queue (fifth conjunct). -/
theorem C7_failing_task_does_not_block (σ : TxQState) (hre : TxReachable σ)
    (t : Nat) (rest : List Nat) (e : Nat)
    (hb : σ.isProcessing = true) (hc : σ.crashed = false) (hq : σ.txQueue = t :: rest) :
    TxStep σ (taskDoneState σ t rest (TxOutcome.reject e)) ∧
    (taskDoneState σ t rest (TxOutcome.reject e)).resolved
      = σ.resolved ++ [(t, TxOutcome.reject e)] ∧
    (∀ u ∈ rest, u ∉ resolvedIds (taskDoneState σ t rest (TxOutcome.reject e))) ∧
    (rest ≠ [] →
        (taskDoneState σ t rest (TxOutcome.reject e)).isProcessing = true ∧
        (taskDoneState σ t rest (TxOutcome.reject e)).txQueue = rest) ∧
    (∃ σ'', TxSteps (taskDoneState σ t rest (TxOutcome.reject e)) σ'' ∧
        resolvedIds σ'' = List.range σ.nextId ∧ ∀ u ∈ rest, u ∈ resolvedIds σ'') := by
  obtain ⟨h1, h2, h3, h4, h5, h6⟩ := txInv_reachable hre
  have hstep := TxStep.task_done σ (TxOutcome.reject e) t rest hb hc hq
  have hinv' := txInv_step (txInv_reachable hre) hstep
  have hlen : σ.txQueue.length = rest.length + 1 := by rw [hq]; rfl
  have hcons : t :: rest
      = σ.resolved.length :: List.range' (σ.resolved.length + 1) rest.length := by
    rw [← hq, h3, hlen]
    simp [List.range'_succ]
  injection hcons with ht hrest
  have hres' : resolvedIds (taskDoneState σ t rest (TxOutcome.reject e))
      = List.range (σ.resolved.length + 1) := by
    have := hinv'.1
    have hlr : (taskDoneState σ t rest (TxOutcome.reject e)).resolved.length
        = σ.resolved.length + 1 := by simp [taskDoneState]
    rw [hlr] at this
    exact this
  refine ⟨hstep, rfl, ?_, ?_, ?_⟩
  · intro u hu
    rw [hres', List.mem_range]
    rw [hrest] at hu
    rw [List.mem_range'_1] at hu
    omega
  · intro hne
    cases rest with
    | nil => exact absurd rfl hne
    | cons x r2 => exact ⟨rfl, rfl⟩
  · have hproc' : (taskDoneState σ t rest (TxOutcome.reject e)).txQueue ≠ [] →
        (taskDoneState σ t rest (TxOutcome.reject e)).isProcessing = true := by
      intro hne
      cases rest with
      | nil => exact absurd rfl hne
      | cons x r2 => rfl
    obtain ⟨σ'', hsteps, hq'', hnid, hres'', hsub⟩ :=
      txDrain rest.length (taskDoneState σ t rest (TxOutcome.reject e)) hinv' rfl rfl hproc'
    refine ⟨σ'', hsteps, hres'', ?_⟩
    intro u hu
    rw [hres'', List.mem_range]
    rw [hrest] at hu
    rw [List.mem_range'_1] at hu
    show u < σ.nextId
    rw [h4, hlen]
    omega

/-- C7 witness: the single submitted task fails; its future is rejected and
the (empty) remainder of the queue is drained. -/
theorem C7_failing_task_does_not_block_witness :
    TxReachable ⟨[0], true, false, 1, [], [0]⟩ ∧
    (taskDoneState ⟨[0], true, false, 1, [], [0]⟩ 0 [] (TxOutcome.reject 7)).resolved
      = [(0, TxOutcome.reject 7)] := by
  have hre : TxReachable ⟨[0], true, false, 1, [], [0]⟩ :=
    TxReachable.step TxReachable.init (TxStep.submit_idle txInit rfl)
  have h := C7_failing_task_does_not_block ⟨[0], true, false, 1, [], [0]⟩ hre 0 [] 7
    rfl rfl rfl
  exact ⟨hre, h.2.1⟩

/-- C10: when the `processQueue` loop itself throws, the catch installed by
`submitTx` rejects every task still queued, with the same error, shifting
them from the head in FIFO order until the queue is empty; afterwards every
submitted task's future has settled (in submission order) — none is
stranded. -/
theorem C10_loop_crash_rejects_all (σ : TxQState) (hre : TxReachable σ) (e : Nat)
    (hb : σ.isProcessing = true) (hc : σ.crashed = false) :
    TxStep σ (queueCrashState σ e) ∧
    (queueCrashState σ e).resolved
      = σ.resolved ++ σ.txQueue.map (fun i => (i, TxOutcome.reject e)) ∧
    (queueCrashState σ e).txQueue = [] ∧
    resolvedIds (queueCrashState σ e) = List.range σ.nextId ∧
    (∀ u ∈ σ.txQueue, (u, TxOutcome.reject e) ∈ (queueCrashState σ e).resolved) := by
  have hstep := TxStep.queue_crash σ e hb hc
  have hinv' := txInv_step (txInv_reachable hre) hstep
  have h4 := (txInv_reachable hre).2.2.2.1
  refine ⟨hstep, by simp [queueCrashState, drainReject_eq_map], rfl, ?_, ?_⟩
  · have := hinv'.1
    have hlr : (queueCrashState σ e).resolved.length
        = σ.resolved.length + σ.txQueue.length := by
      simp [queueCrashState, drainReject_eq_map]
    rw [hlr, ← h4] at this
    exact this
  · intro u hu
    show (u, TxOutcome.reject e) ∈ σ.resolved ++ drainReject e σ.txQueue
    rw [drainReject_eq_map]
    exact List.mem_append.mpr (Or.inr (List.mem_map.mpr ⟨u, hu, rfl⟩))

/-- C10 witness: two queued tasks at the moment of a loop crash are both
rejected with the same error, in FIFO order. -/
theorem C10_loop_crash_rejects_all_witness :
    TxReachable ⟨[0, 1], true, false, 2, [], [0]⟩ ∧
    (queueCrashState ⟨[0, 1], true, false, 2, [], [0]⟩ 9).resolved
      = [(0, TxOutcome.reject 9), (1, TxOutcome.reject 9)] ∧
    resolvedIds (queueCrashState ⟨[0, 1], true, false, 2, [], [0]⟩ 9) = List.range 2 := by
  have hre1 : TxReachable ⟨[0], true, false, 1, [], [0]⟩ :=
    TxReachable.step TxReachable.init (TxStep.submit_idle txInit rfl)
  have hre : TxReachable ⟨[0, 1], true, false, 2, [], [0]⟩ :=
    TxReachable.step hre1 (TxStep.submit_busy ⟨[0], true, false, 1, [], [0]⟩ rfl)
  have h := C10_loop_crash_rejects_all ⟨[0, 1], true, false, 2, [], [0]⟩ hre 9 rfl rfl
  exact ⟨hre, h.2.1, h.2.2.2.1⟩

end AppchainAgent
